import Mathlib

/-!
Verification of the chunked, resumable bulk-transfer pipeline of the
poc-excel-addin-restapi repository.

The development shallowly embeds the pipeline's core functions:

* the Chunker and Payload Estimator, the Retry Policy
  (withExponentialBackoff), the Progress Tracker and the Chunked Transfer
  Engine (processRangeInChunks), all from
  src/excel-add-in/src/utils/chunkingUtils.ts;
* the Update Batching Queue (queueUpdate, processPendingUpdates,
  processBatchWithRetry, processSequentialUpdatesWithRetry) from the
  taskpane source.

JavaScript numbers are modelled with Nat, Int and Rat; the sessionStorage
key-value store is an association list; the Excel sink (range write plus
sync) and the HTTP endpoints are oracles giving the outcome of each
attempt; Date.now is an explicit time parameter.  Fallible calls return
Except.  Loops whose termination depends on run-time values carry explicit
fuel so that every definition is executable.
-/

namespace ExcelChunking

/-! Configuration constants, from the CHUNKING_CONFIG object. -/

def DEFAULT_CHUNK_SIZE : Nat := 250
def MIN_CHUNK_SIZE : Nat := 50
def MAX_CHUNK_SIZE : Nat := 500
def MAX_RETRIES : Nat := 3
def INITIAL_RETRY_DELAY : ℚ := 1000
def MAX_RETRY_DELAY : ℚ := 10000
def ESTIMATED_BYTES_PER_CELL : Nat := 50
def MAX_PAYLOAD_SIZE_BYTES : Nat := 5 * 1024 * 1024

/-! The Chunker: chunkRangeValues.

The source iterates a loop index `i` of JavaScript number type starting at
0 and stepping by `chunkSize`, pushing `values.slice(i, i + chunkSize)`
while `i < values.length`.  The loop terminates only when the step is
positive, so the embedding carries fuel: an exhausted-fuel result `none`
witnesses that the loop ran longer than any given bound. -/

/-- jsSlice models Array.prototype.slice with integer arguments: negative
indices count from the end of the array, and both indices are clamped to
the array bounds. -/
def jsSlice {α : Type} (l : List α) (start stop : Int) : List α :=
  let len : Int := l.length
  let s : Int := if start < 0 then max (len + start) 0 else min start len
  let e : Int := if stop < 0 then max (len + stop) 0 else min stop len
  (l.take e.toNat).drop s.toNat

/-- chunkLoop is the loop body of chunkRangeValues: while i < values.length,
push values.slice(i, i + chunkSize) and advance i by chunkSize. -/
def chunkLoop {α : Type} (values : List (List α)) (chunkSize : Int) :
    Int → List (List (List α)) → Nat → Option (List (List (List α)))
  | _, _, 0 => none
  | i, acc, fuel + 1 =>
    if i < (values.length : Int) then
      chunkLoop values chunkSize (i + chunkSize)
        (acc ++ [jsSlice values i (i + chunkSize)]) fuel
    else
      some acc

/-- chunkRangeValues splits a 2D array of values into chunks of the given
number of rows, mirroring the source loop; `fuel` bounds the number of
iterations observed, and a `none` result means the loop was still running
when the bound was reached. -/
def chunkRangeValues {α : Type} (values : List (List α)) (chunkSize : Int)
    (fuel : Nat) : Option (List (List (List α))) :=
  chunkLoop values chunkSize 0 [] fuel

/-- chunkDiverges states that no amount of fuel makes the chunking loop of
chunkRangeValues return: the source loop never terminates on this input. -/
def chunkDiverges {α : Type} (values : List (List α)) (chunkSize : Int) : Prop :=
  ∀ fuel : Nat, chunkRangeValues values chunkSize fuel = none

/-- chunksOfAux is chunk splitting by take/drop with structural fuel; with
fuel at least the list length and a positive chunk size it is exactly the
slice sequence produced by the source loop (chunkLoop_eq_chunksOf). -/
def chunksOfAux {α : Type} (c : Nat) : Nat → List α → List (List α)
  | _, [] => []
  | 0, _ :: _ => []
  | fuel + 1, x :: xs => (List.take c (x :: xs)) :: chunksOfAux c fuel (List.drop c (x :: xs))

/-- chunksOf splits a list into consecutive chunks of c elements, the last
chunk possibly shorter. -/
def chunksOf {α : Type} (l : List α) (c : Nat) : List (List α) :=
  chunksOfAux c l.length l

lemma chunksOfAux_fuel {α : Type} {c : Nat} (hc : 0 < c) :
    ∀ (fuel : Nat) (l : List α), l.length ≤ fuel → chunksOfAux c fuel l = chunksOf l c := by
  intro fuel
  induction fuel using Nat.strong_induction_on with
  | _ fuel ih =>
    intro l hl
    match fuel, l with
    | f, [] => cases f <;> rfl
    | 0, x :: xs => simp at hl
    | n + 1, x :: xs =>
      have hdlen : (List.drop c (x :: xs)).length ≤ xs.length := by
        simp only [List.length_drop, List.length_cons]; omega
      have hxl : xs.length ≤ n := by
        simp only [List.length_cons] at hl; omega
      show (List.take c (x :: xs)) :: chunksOfAux c n (List.drop c (x :: xs))
          = chunksOf (x :: xs) c
      have hrfl : chunksOf (x :: xs) c =
          (List.take c (x :: xs)) :: chunksOfAux c xs.length (List.drop c (x :: xs)) := rfl
      rw [hrfl]
      rcases Nat.eq_or_lt_of_le hxl with heq | hlt
      · rw [heq]
      · rw [ih n (by omega) _ (le_trans hdlen hxl),
          ih xs.length (by omega) _ hdlen]

/-- chunksOf_cons unfolds one chunk for a non-empty list and positive chunk
size. -/
lemma chunksOf_cons {α : Type} {c : Nat} (hc : 0 < c) (l : List α) (hl : l ≠ []) :
    chunksOf l c = List.take c l :: chunksOf (List.drop c l) c := by
  match l with
  | [] => exact absurd rfl hl
  | x :: xs =>
    have hdlen : (List.drop c (x :: xs)).length ≤ xs.length := by
      simp only [List.length_drop, List.length_cons]; omega
    show chunksOfAux c (xs.length + 1) (x :: xs) = _
    show (List.take c (x :: xs)) :: chunksOfAux c xs.length (List.drop c (x :: xs)) = _
    rw [chunksOfAux_fuel hc _ _ hdlen]

lemma chunksOf_eq_nil_iff {α : Type} {c : Nat} (hc : 0 < c) (l : List α) :
    chunksOf l c = [] ↔ l = [] := by
  constructor
  · intro h
    by_contra hl
    rw [chunksOf_cons hc l hl] at h
    exact List.cons_ne_nil _ _ h
  · intro h; subst h; rfl

lemma chunksOf_flatten_aux {α : Type} {c : Nat} (hc : 0 < c) :
    ∀ (n : Nat) (l : List α), l.length ≤ n → (chunksOf l c).flatten = l := by
  intro n
  induction n with
  | zero =>
    intro l hl
    have : l = [] := List.eq_nil_of_length_eq_zero (by omega)
    subst this; rfl
  | succ n ih =>
    intro l hl
    match l with
    | [] => rfl
    | x :: xs =>
      rw [chunksOf_cons hc _ (List.cons_ne_nil x xs), List.flatten_cons,
        ih (List.drop c (x :: xs)) (by simp only [List.length_drop, List.length_cons] at *; omega)]
      exact List.take_append_drop ..

/-- chunksOf_flatten: concatenating the chunks in order reconstructs the
original list. -/
lemma chunksOf_flatten {α : Type} {c : Nat} (hc : 0 < c) (l : List α) :
    (chunksOf l c).flatten = l :=
  chunksOf_flatten_aux hc l.length l le_rfl

lemma chunksOf_length_bounds_aux {α : Type} {c : Nat} (hc : 0 < c) :
    ∀ (n : Nat) (l : List α), l.length ≤ n →
      ∀ ch ∈ chunksOf l c, 0 < ch.length ∧ ch.length ≤ c := by
  intro n
  induction n with
  | zero =>
    intro l hl ch hch
    have : l = [] := List.eq_nil_of_length_eq_zero (by omega)
    subst this; simp [chunksOf, chunksOfAux] at hch
  | succ n ih =>
    intro l hl ch hch
    match l with
    | [] => simp [chunksOf, chunksOfAux] at hch
    | x :: xs =>
      rw [chunksOf_cons hc _ (List.cons_ne_nil x xs)] at hch
      rcases List.mem_cons.mp hch with h | h
      · subst h
        constructor
        · simp only [List.length_take, List.length_cons]; omega
        · simp only [List.length_take]; omega
      · exact ih (List.drop c (x :: xs))
          (by simp only [List.length_drop, List.length_cons] at *; omega) ch h

/-- chunksOf_length_bounds: every chunk is non-empty and has at most c
rows. -/
lemma chunksOf_length_bounds {α : Type} {c : Nat} (hc : 0 < c) (l : List α) :
    ∀ ch ∈ chunksOf l c, 0 < ch.length ∧ ch.length ≤ c :=
  chunksOf_length_bounds_aux hc l.length l le_rfl

lemma chunksOf_dropLast_length_aux {α : Type} {c : Nat} (hc : 0 < c) :
    ∀ (n : Nat) (l : List α), l.length ≤ n →
      ∀ ch ∈ (chunksOf l c).dropLast, ch.length = c := by
  intro n
  induction n with
  | zero =>
    intro l hl ch hch
    have : l = [] := List.eq_nil_of_length_eq_zero (by omega)
    subst this; simp [chunksOf, chunksOfAux] at hch
  | succ n ih =>
    intro l hl ch hch
    match l with
    | [] => simp [chunksOf, chunksOfAux] at hch
    | x :: xs =>
      rw [chunksOf_cons hc _ (List.cons_ne_nil x xs)] at hch
      by_cases hrest : chunksOf (List.drop c (x :: xs)) c = []
      · rw [hrest] at hch
        simp at hch
      · rw [List.dropLast_cons_of_ne_nil hrest] at hch
        rcases List.mem_cons.mp hch with h | h
        · subst h
          have hdne : List.drop c (x :: xs) ≠ [] :=
            fun hd => hrest (by rw [hd]; rfl)
          have : c < (x :: xs).length := by
            by_contra hcl
            exact hdne (List.drop_eq_nil_of_le (by omega))
          simp only [List.length_take]; omega
        · exact ih (List.drop c (x :: xs))
            (by simp only [List.length_drop, List.length_cons] at *; omega) ch h

/-- chunksOf_dropLast_length: every chunk except the last has exactly c
rows. -/
lemma chunksOf_dropLast_length {α : Type} {c : Nat} (hc : 0 < c) (l : List α) :
    ∀ ch ∈ (chunksOf l c).dropLast, ch.length = c :=
  chunksOf_dropLast_length_aux hc l.length l le_rfl

/-- jsSlice with natural-number start i and stop i + c takes c elements
starting at index i. -/
lemma jsSlice_natCast {α : Type} (l : List α) (i c : Nat) :
    jsSlice l (i : Int) ((i : Int) + (c : Int)) = (List.drop i l).take c := by
  unfold jsSlice
  have hi0 : ¬((i : Int) < 0) := by omega
  have hic0 : ¬((i : Int) + (c : Int) < 0) := by omega
  simp only [if_neg hi0, if_neg hic0]
  have hmin1 : min ((i : Int) + (c : Int)) ((l.length : Nat) : Int)
      = ((min (i + c) l.length : Nat) : Int) := by
    push_cast; omega
  have hmin2 : min ((i : Int)) ((l.length : Nat) : Int)
      = ((min i l.length : Nat) : Int) := by
    push_cast; omega
  rw [hmin1, hmin2, Int.toNat_natCast, Int.toNat_natCast]
  by_cases hil : i ≤ l.length
  · rw [Nat.min_eq_left hil, List.drop_take]
    rw [List.take_eq_take]
    simp only [List.length_drop]
    omega
  · rw [Nat.min_eq_right (by omega), List.drop_eq_nil_of_le (le_of_not_le hil),
      List.take_nil]
    apply List.drop_eq_nil_of_le
    simp only [List.length_take]
    omega

/-- chunkLoop with a positive natural chunk size computes chunksOf of the
remaining rows, given enough fuel. -/
lemma chunkLoop_eq_chunksOf {α : Type} {c : Nat} (hc : 0 < c) (l : List (List α)) :
    ∀ (fuel i : Nat) (acc : List (List (List α))), l.length - i < fuel →
      chunkLoop l (c : Int) (i : Int) acc fuel = some (acc ++ chunksOf (List.drop i l) c) := by
  intro fuel
  induction fuel with
  | zero => intro i acc h; omega
  | succ fuel ih =>
    intro i acc h
    show (if (i : Int) < (l.length : Int) then _ else some acc) = _
    by_cases hi : (i : Int) < (l.length : Int)
    · rw [if_pos hi]
      have hiN : i < l.length := by exact_mod_cast hi
      have hcast : (i : Int) + (c : Int) = ((i + c : Nat) : Int) := by push_cast; ring
      rw [jsSlice_natCast l i c, hcast, ih (i + c) _ (by omega)]
      have hdne : List.drop i l ≠ [] := by
        intro hd
        have := List.drop_eq_nil_iff.mp hd
        omega
      rw [chunksOf_cons hc _ hdne, List.drop_drop]
      simp only [List.append_assoc, List.singleton_append, Nat.add_comm c i]
    · rw [if_neg hi]
      have hiN : l.length ≤ i := by omega
      rw [List.drop_eq_nil_of_le hiN]
      simp [chunksOf, chunksOfAux]

/-- chunkRangeValues with a positive chunk size and fuel one more than the
row count terminates and returns exactly the take/drop chunk sequence. -/
lemma chunkRangeValues_eq_chunksOf {α : Type} {c : Nat} (hc : 0 < c) (l : List (List α)) :
    chunkRangeValues l (c : Int) (l.length + 1) = some (chunksOf l c) := by
  unfold chunkRangeValues
  have h := chunkLoop_eq_chunksOf hc l (l.length + 1) 0 [] (by omega)
  simpa using h

/-- chunkLoop with a non-positive chunk size and a non-empty grid never
leaves the loop: the index stays non-positive and below the length. -/
lemma chunkLoop_nonpos_none {α : Type} {c : Int} (hc : c ≤ 0)
    (l : List (List α)) (hl : l ≠ []) :
    ∀ (fuel : Nat) (i : Int), i ≤ 0 → ∀ acc, chunkLoop l c i acc fuel = none := by
  intro fuel
  induction fuel with
  | zero => intro i hi acc; rfl
  | succ fuel ih =>
    intro i hi acc
    have hlen : 0 < (l.length : Int) := by
      have : l.length ≠ 0 := fun h => hl (List.eq_nil_of_length_eq_zero h)
      omega
    show (if (i : Int) < (l.length : Int) then _ else some acc) = _
    rw [if_pos (by omega)]
    exact ih (i + c) (by omega) _

/-- chunkRangeValues_nonpos_diverges: with chunkSize at most 0 and a
non-empty grid the source loop never terminates. -/
lemma chunkRangeValues_nonpos_diverges {α : Type} {c : Int} (hc : c ≤ 0)
    (l : List (List α)) (hl : l ≠ []) : chunkDiverges l c := by
  intro fuel
  exact chunkLoop_nonpos_none hc l hl fuel 0 le_rfl []

/-! The Payload Estimator: estimatePayloadSize and
calculateOptimalChunkSize. -/

/-- estimatePayloadSize counts the cells of the grid and multiplies by the
per-cell byte estimate. -/
def estimatePayloadSize {α : Type} (values : List (List α)) : Nat :=
  (values.map List.length).sum * ESTIMATED_BYTES_PER_CELL

/-- calculateOptimalChunkSize derives rows per chunk from the payload
ceiling: Math.floor of maxCellsPerChunk divided by the column count,
clamped between MIN_CHUNK_SIZE and MAX_CHUNK_SIZE.  The source's two
floating-point divisions followed by Math.floor compute exactly
floor(MAX_PAYLOAD_SIZE_BYTES / (ESTIMATED_BYTES_PER_CELL * columns)) for
every positive column count (the quotient is never an integer and the
rounding error is far below the distance to one), which on naturals is
Nat division; a zero column count gives Infinity in the source, clamped to
MAX_CHUNK_SIZE. -/
def calculateOptimalChunkSize (totalRows columnsPerRow : Nat) : Nat :=
  if columnsPerRow = 0 then MAX_CHUNK_SIZE
  else
    let rowsPerChunk := MAX_PAYLOAD_SIZE_BYTES / (ESTIMATED_BYTES_PER_CELL * columnsPerRow)
    min (max rowsPerChunk MIN_CHUNK_SIZE) MAX_CHUNK_SIZE

/-! The Retry Policy: withExponentialBackoff.

The source loops forever, invoking the operation, returning its result on
success, counting the failure otherwise, throwing the last error once
retries exceed maxRetries, and sleeping an exponentially growing jittered
delay between attempts.  The embedding indexes invocations of the
operation by attempt number (the closure may behave differently per
attempt), counts down `remaining = maxRetries - retries` so the recursion
is structural, threads the jitter stream Math.random as an explicit
function of the attempt index, and records the list of slept delays.  It
returns the final result, the number of invocations of the operation, and
the slept delays. -/

def backoffLoop {ε α : Type} (op : Nat → Except ε α) (rand : Nat → ℚ)
    (maxDelay : ℚ) :
    Nat → Nat → ℚ → List ℚ → Except ε α × Nat × List ℚ
  | retries, 0, _, slept =>
    (match op retries with
     | .ok a => (.ok a, retries + 1, slept)
     | .error e => (.error e, retries + 1, slept))
  | retries, remaining + 1, delay, slept =>
    (match op retries with
     | .ok a => (.ok a, retries + 1, slept)
     | .error _ =>
       backoffLoop op rand maxDelay (retries + 1) remaining
         (min (delay * 2 * (9/10 + rand retries * (1/5))) maxDelay)
         (slept ++ [delay]))

/-- withExponentialBackoff retries the operation with exponential backoff;
total attempts are maxRetries + 1. -/
def withExponentialBackoff {ε α : Type} (op : Nat → Except ε α)
    (maxRetries : Nat := MAX_RETRIES)
    (initialDelay : ℚ := INITIAL_RETRY_DELAY)
    (maxDelay : ℚ := MAX_RETRY_DELAY)
    (rand : Nat → ℚ := fun _ => 0) : Except ε α × Nat × List ℚ :=
  backoffLoop op rand maxDelay 0 maxRetries initialDelay []

lemma backoffLoop_all_fail {ε α : Type} (op : Nat → Except ε α) (rand : Nat → ℚ)
    (maxDelay : ℚ) (hfail : ∀ k, ∃ e, op k = .error e) :
    ∀ (remaining retries : Nat) (delay : ℚ) (slept : List ℚ),
      (backoffLoop op rand maxDelay retries remaining delay slept).1 = op (retries + remaining)
      ∧ (backoffLoop op rand maxDelay retries remaining delay slept).2.1
          = retries + remaining + 1
      ∧ (backoffLoop op rand maxDelay retries remaining delay slept).2.2.length
          = slept.length + remaining := by
  intro remaining
  induction remaining with
  | zero =>
    intro retries delay slept
    obtain ⟨e, he⟩ := hfail retries
    simp [backoffLoop, he]
  | succ n ih =>
    intro retries delay slept
    obtain ⟨e, he⟩ := hfail retries
    have hstep : backoffLoop op rand maxDelay retries (n + 1) delay slept
        = backoffLoop op rand maxDelay (retries + 1) n
            (min (delay * 2 * (9/10 + rand retries * (1/5))) maxDelay)
            (slept ++ [delay]) := by
      simp [backoffLoop, he]
    rw [hstep]
    obtain ⟨h1, h2, h3⟩ := ih (retries + 1)
      (min (delay * 2 * (9/10 + rand retries * (1/5))) maxDelay) (slept ++ [delay])
    refine ⟨?_, ?_, ?_⟩
    · rw [h1]; ring_nf
    · rw [h2]; ring
    · rw [h3]; simp; ring

lemma backoffLoop_first_ok {ε α : Type} (op : Nat → Except ε α) (rand : Nat → ℚ)
    (maxDelay : ℚ) (remaining : Nat) (delay : ℚ) {a : α} (hok : op 0 = .ok a) :
    backoffLoop op rand maxDelay 0 remaining delay [] = (.ok a, 1, []) := by
  cases remaining <;> simp [backoffLoop, hok]

/-! The Progress Tracker.

ChunkingProgress mirrors the source interface; the sessionStorage string
store is an association list from keys to progress records (the
JSON.stringify round-trip is the identity on this data).  The source
swallows storage failures; the store capability here is total, which
models the storage-available executions the claims are about. -/

inductive ProgressStatus : Type
  | inProgress
  | completed
  | failed
deriving DecidableEq, Repr

structure ChunkingProgress : Type where
  operationId : String
  totalChunks : Nat
  completedChunks : Nat
  startTime : Nat
  lastChunkTime : Nat
  status : ProgressStatus
  error : Option String
deriving DecidableEq, Repr

/-- Store is the sessionStorage key-value map. -/
def Store : Type := List (String × ChunkingProgress)

instance : DecidableEq Store := inferInstanceAs (DecidableEq (List (String × ChunkingProgress)))

/-- kvGet models sessionStorage.getItem. -/
def kvGet : Store → String → Option ChunkingProgress
  | [], _ => none
  | (k', v) :: rest, k => if k' = k then some v else kvGet rest k

/-- kvSet models sessionStorage.setItem: overwrite the key if present,
append it otherwise. -/
def kvSet : Store → String → ChunkingProgress → Store
  | [], k, v => [(k, v)]
  | (k', v') :: rest, k, v =>
    if k' = k then (k, v) :: rest else (k', v') :: kvSet rest k v

/-- kvRemove models sessionStorage.removeItem. -/
def kvRemove (st : Store) (k : String) : Store :=
  st.filter (fun p => p.1 ≠ k)

/-- progressKey is the sessionStorage key for an operation:
PROGRESS_KEY_PREFIX followed by the operation id. -/
def progressKey (operationId : String) : String :=
  "excel_chunking_progress_" ++ operationId

/-- saveProgress persists a progress record under its operation id. -/
def saveProgress (st : Store) (progress : ChunkingProgress) : Store :=
  kvSet st (progressKey progress.operationId) progress

/-- loadProgress reads the persisted progress for an operation id. -/
def loadProgress (st : Store) (operationId : String) : Option ChunkingProgress :=
  kvGet st (progressKey operationId)

/-- clearProgress removes the persisted progress for an operation id. -/
def clearProgress (st : Store) (operationId : String) : Store :=
  kvRemove st (progressKey operationId)

/-- createProgressTracker builds a fresh in-progress record with zero
completed chunks and saves it immediately; now is Date.now. -/
def createProgressTracker (st : Store) (operationId : String)
    (totalChunks : Nat) (now : Nat) : ChunkingProgress × Store :=
  let progress : ChunkingProgress :=
    { operationId := operationId
      totalChunks := totalChunks
      completedChunks := 0
      startTime := now
      lastChunkTime := now
      status := .inProgress
      error := none }
  (progress, saveProgress st progress)

/-- updateProgress overwrites completedChunks and lastChunkTime, applies
the optional status and error, and saves the result. -/
def updateProgress (st : Store) (progress : ChunkingProgress)
    (completedChunks : Nat) (status : Option ProgressStatus)
    (error : Option String) (now : Nat) : ChunkingProgress × Store :=
  let p1 := { progress with completedChunks := completedChunks, lastChunkTime := now }
  let p2 := match status with
    | some s => { p1 with status := s }
    | none => p1
  let p3 := match error with
    | some e => { p2 with error := some e }
    | none => p2
  (p3, saveProgress st p3)

lemma kvGet_kvSet_self (st : Store) (k : String) (v : ChunkingProgress) :
    kvGet (kvSet st k v) k = some v := by
  induction st with
  | nil => simp [kvSet, kvGet]
  | cons hd rest ih =>
    by_cases h : hd.1 = k
    · simp [kvSet, kvGet, h]
    · obtain ⟨k', v'⟩ := hd
      simp only at h
      simp [kvSet, kvGet, h, ih]

lemma kvGet_kvRemove_self (st : Store) (k : String) :
    kvGet (kvRemove st k) k = none := by
  induction st with
  | nil => rfl
  | cons hd rest ih =>
    obtain ⟨k', v'⟩ := hd
    by_cases h : k' = k
    · simpa [kvRemove, List.filter_cons, h] using ih
    · simpa [kvRemove, List.filter_cons, h, kvGet] using ih

/-! The Chunked Transfer Engine: processRangeInChunks.

The sink capability abstracts one chunk-write attempt against the Excel
surface (getRange, assign values, context.sync): `sink i k` is the outcome
of attempt k of chunk i.  The Excel range-address string built from
startCell and getColumnLetter is part of the host write and is absorbed
into the sink; the engine output records each successfully written chunk
as (chunk index, chunk rows).  The onProgress callback is a pure observer
and is not modelled.  Date.now is the parameter now. -/

structure ChunkingOptions : Type where
  chunkSize : Option Nat := none
  maxRetries : Option Nat := none
  operationId : Option String := none
  resumeFromChunk : Option Int := none

/-- resolveChunkSize models the two-stage chunk-size choice of
processRangeInChunks: destructuring gives DEFAULT_CHUNK_SIZE when the
option is absent, and the later expression `chunkSize or-else
calculateOptimalChunkSize(...)` falls through to the estimator only when
the resolved value is falsy (0). -/
def resolveChunkSize (chunkSizeOpt : Option Nat) (rows cols : Nat) : Nat :=
  let chunkSize := chunkSizeOpt.getD DEFAULT_CHUNK_SIZE
  if chunkSize = 0 then calculateOptimalChunkSize rows cols else chunkSize

/-- chunkAttempt is one chunk write wrapped in the Retry Policy; the
jitter stream only influences the slept delays, which the returned first
component ignores. -/
def chunkAttempt (sink : Nat → Nat → Except String Unit) (maxRetries i : Nat) :
    Except String Unit :=
  (withExponentialBackoff (sink i) maxRetries INITIAL_RETRY_DELAY MAX_RETRY_DELAY
    (fun _ => 0)).1

/-- RunResult is the observable outcome of one engine run: the resolved or
rejected promise, the final in-memory progress record (none when the
empty-grid guard returned before one was created or loaded), the final
session store, and the successfully written chunks in write order. -/
instance {ε β : Type} [DecidableEq ε] [DecidableEq β] : DecidableEq (Except ε β) :=
  fun a b =>
    match a, b with
    | .ok x, .ok y =>
      if h : x = y then isTrue (by rw [h]) else
        isFalse (fun hh => h (by cases hh; rfl))
    | .error x, .error y =>
      if h : x = y then isTrue (by rw [h]) else
        isFalse (fun hh => h (by cases hh; rfl))
    | .ok _, .error _ => isFalse (fun hh => Except.noConfusion hh)
    | .error _, .ok _ => isFalse (fun hh => Except.noConfusion hh)

structure RunResult (α : Type) : Type where
  result : Except String Unit
  progress : Option ChunkingProgress
  store : Store
  writes : List (Nat × List (List α))
deriving DecidableEq

/-- processLoop is the chunk loop of processRangeInChunks from index i:
attempt the chunk write under the Retry Policy; on success save progress
i + 1 and continue; on exhausted retries propagate the error, leaving the
store at the last save; after the last chunk mark the progress completed
(saving it) and clear the persisted entry for the operation id.
`remaining` counts the chunks left, chunks.length - i at every call. -/
def processLoop {α : Type} (sink : Nat → Nat → Except String Unit)
    (maxRetries : Nat) (chunks : List (List (List α))) (operationId : String)
    (now : Nat) :
    Nat → Nat → ChunkingProgress → Store → List (Nat × List (List α)) → RunResult α
  | 0, _, progress, store, writes =>
    let pair := updateProgress store progress chunks.length (some .completed) none now
    { result := .ok ()
      progress := some pair.1
      store := clearProgress pair.2 operationId
      writes := writes }
  | remaining + 1, i, progress, store, writes =>
    match chunkAttempt sink maxRetries i with
    | .error e =>
      { result := .error e
        progress := some progress
        store := store
        writes := writes }
    | .ok _ =>
      let pair := updateProgress store progress (i + 1) none none now
      processLoop sink maxRetries chunks operationId now remaining (i + 1) pair.1 pair.2
        (writes ++ [(i, chunks.getD i [])])

/-- processRangeInChunks orchestrates option defaults, the empty-grid
guard, chunk splitting (chunksOf agrees with the source chunkRangeValues
at the positive sizes used here, chunkRangeValues_eq_chunksOf and
resolveChunkSize_pos), load-or-create of the progress record, the
totalChunks overwrite, the resume clamp, and the chunk loop. -/
def processRangeInChunks {α : Type} (sink : Nat → Nat → Except String Unit)
    (st : Store) (values : Option (List (List α))) (_startCell : String)
    (options : ChunkingOptions) (now : Nat) : RunResult α :=
  let maxRetries := options.maxRetries.getD MAX_RETRIES
  let operationId := options.operationId.getD ("range_op_" ++ toString now)
  let resumeFromChunk := options.resumeFromChunk.getD 0
  match values with
  | none => { result := .ok (), progress := none, store := st, writes := [] }
  | some [] => { result := .ok (), progress := none, store := st, writes := [] }
  | some (r0 :: rows) =>
    let actualChunkSize := resolveChunkSize options.chunkSize (r0 :: rows).length r0.length
    let chunks := chunksOf (r0 :: rows) actualChunkSize
    let pair := match loadProgress st operationId with
      | some p => (p, st)
      | none => createProgressTracker st operationId chunks.length now
    let progress := { pair.1 with totalChunks := chunks.length }
    let startChunk := (max 0 (min resumeFromChunk ((chunks.length : Int) - 1))).toNat
    processLoop sink maxRetries chunks operationId now (chunks.length - startChunk)
      startChunk progress pair.2 []

lemma updateProgress_fst_none (st : Store) (p : ChunkingProgress) (n now : Nat) :
    (updateProgress st p n none none now).1
      = { p with completedChunks := n, lastChunkTime := now } := rfl

lemma updateProgress_fst_completed (st : Store) (p : ChunkingProgress) (n now : Nat) :
    (updateProgress st p n (some .completed) none now).1
      = { p with completedChunks := n, lastChunkTime := now, status := .completed } := rfl

lemma updateProgress_snd (st : Store) (p : ChunkingProgress) (n : Nat)
    (status : Option ProgressStatus) (error : Option String) (now : Nat) :
    (updateProgress st p n status error now).2
      = saveProgress st (updateProgress st p n status error now).1 := by
  cases status <;> cases error <;> rfl

lemma processLoop_all_ok {α : Type} (sink : Nat → Nat → Except String Unit)
    (mr : Nat) (chunks : List (List (List α))) (opId : String) (now : Nat)
    (hok : ∀ j, chunkAttempt sink mr j = .ok ()) :
    ∀ (remaining i : Nat) (progress : ChunkingProgress) (store : Store)
      (writes : List (Nat × List (List α))),
      (processLoop sink mr chunks opId now remaining i progress store writes).writes
        = writes ++ (List.range' i remaining).map (fun j => (j, chunks.getD j []))
      ∧ (processLoop sink mr chunks opId now remaining i progress store writes).result
        = .ok ()
      ∧ (∃ p, (processLoop sink mr chunks opId now remaining i progress store writes).progress
            = some p ∧ p.status = .completed ∧ p.operationId = progress.operationId
            ∧ p.completedChunks = chunks.length)
      ∧ kvGet (processLoop sink mr chunks opId now remaining i progress store writes).store
          (progressKey opId) = none := by
  intro remaining
  induction remaining with
  | zero =>
    intro i progress store writes
    refine ⟨by simp [processLoop], rfl, ?_, kvGet_kvRemove_self _ _⟩
    refine ⟨(updateProgress store progress chunks.length (some .completed) none now).1,
      rfl, ?_, ?_, ?_⟩
    · rw [updateProgress_fst_completed]
    · rw [updateProgress_fst_completed]
    · rw [updateProgress_fst_completed]
  | succ n ih =>
    intro i progress store writes
    have hstep : processLoop sink mr chunks opId now (n + 1) i progress store writes
        = processLoop sink mr chunks opId now n (i + 1)
            (updateProgress store progress (i + 1) none none now).1
            (updateProgress store progress (i + 1) none none now).2
            (writes ++ [(i, chunks.getD i [])]) := by
      simp [processLoop, hok i]
    rw [hstep]
    obtain ⟨h1, h2, h3, h4⟩ := ih (i + 1)
      (updateProgress store progress (i + 1) none none now).1
      (updateProgress store progress (i + 1) none none now).2
      (writes ++ [(i, chunks.getD i [])])
    refine ⟨?_, h2, ?_, h4⟩
    · rw [h1, List.range'_succ i n 1]
      simp
    · obtain ⟨p, hp, hps, hpo, hpc⟩ := h3
      exact ⟨p, hp, hps, by rw [hpo, updateProgress_fst_none], hpc⟩

lemma processLoop_fail {α : Type} (sink : Nat → Nat → Except String Unit)
    (mr : Nat) (chunks : List (List (List α))) (opId : String) (now : Nat)
    (f : Nat) (e : String) (hfe : chunkAttempt sink mr f = .error e) :
    ∀ (remaining i : Nat) (progress : ChunkingProgress) (store : Store)
      (writes : List (Nat × List (List α))),
      i ≤ f → f < i + remaining →
      (∀ j, i ≤ j → j < f → chunkAttempt sink mr j = .ok ()) →
      progress.operationId = opId →
      (∃ q, kvGet store (progressKey opId) = some q ∧ q.completedChunks = i) →
      (processLoop sink mr chunks opId now remaining i progress store writes).result
        = .error e
      ∧ (∃ q, kvGet (processLoop sink mr chunks opId now remaining i progress store
            writes).store (progressKey opId) = some q ∧ q.completedChunks = f) := by
  intro remaining
  induction remaining with
  | zero => intro i progress store writes hif hfr hok hpid hst; omega
  | succ n ih =>
    intro i progress store writes hif hfr hok hpid hst
    rcases Nat.eq_or_lt_of_le hif with heq | hlt
    · subst heq
      have hstep : processLoop sink mr chunks opId now (n + 1) i progress store writes
          = { result := .error e, progress := some progress, store := store,
              writes := writes } := by
        simp [processLoop, hfe]
      rw [hstep]
      exact ⟨rfl, hst⟩
    · have hoki : chunkAttempt sink mr i = .ok () := hok i le_rfl hlt
      have hstep : processLoop sink mr chunks opId now (n + 1) i progress store writes
          = processLoop sink mr chunks opId now n (i + 1)
              (updateProgress store progress (i + 1) none none now).1
              (updateProgress store progress (i + 1) none none now).2
              (writes ++ [(i, chunks.getD i [])]) := by
        simp [processLoop, hoki]
      rw [hstep]
      apply ih (i + 1) _ _ _ (by omega) (by omega)
        (fun j hj1 hj2 => hok j (by omega) hj2)
      · rw [updateProgress_fst_none]
        exact hpid
      · refine ⟨(updateProgress store progress (i + 1) none none now).1, ?_, ?_⟩
        · rw [updateProgress_snd]
          unfold saveProgress
          rw [updateProgress_fst_none]
          simp only [hpid]
          exact kvGet_kvSet_self _ _ _
        · rw [updateProgress_fst_none]

lemma calculateOptimalChunkSize_pos (totalRows columnsPerRow : Nat) :
    0 < calculateOptimalChunkSize totalRows columnsPerRow := by
  unfold calculateOptimalChunkSize MIN_CHUNK_SIZE MAX_CHUNK_SIZE
  by_cases h : columnsPerRow = 0
  · rw [if_pos h]; omega
  · rw [if_neg h]
    exact lt_min (lt_of_lt_of_le (by omega) (le_max_right _ _)) (by omega)

lemma resolveChunkSize_pos (chunkSizeOpt : Option Nat) (rows cols : Nat) :
    0 < resolveChunkSize chunkSizeOpt rows cols := by
  unfold resolveChunkSize
  by_cases h : chunkSizeOpt.getD DEFAULT_CHUNK_SIZE = 0
  · simp only [h, if_pos rfl]
    exact calculateOptimalChunkSize_pos rows cols
  · simp only [if_neg h]
    omega

/-! The Update Batching Queue, from the taskpane cell-change handler.

Module state: the pendingUpdates array, the UPDATE_BATCH_DELAY debounce
constant (500 ms) and the updateTimeoutId handle.  queueUpdate appends a
PendingEdit, clears any recorded timeout and schedules
processPendingUpdates after the delay.  The JavaScript event loop is
modelled as a discrete-event simulation: a multiset of future events (edit
arrivals from the host, timer callbacks, flush completions) is consumed
earliest-first (first minimum for ties, matching scheduling order), with
structural fuel bounding the number of handled events.  clearTimeout is
event removal; the flush body runs from its timer fire to a completion
event flushDur later, at which point its finally block clears the shared
pendingUpdates array and nulls updateTimeoutId without cancelling any
timer a mid-flight edit created.  The batch a flush transfers is the queue
content when the flush starts, which is exact for the single-edit path and
for flushes during which no further edit arrives (the scenarios below);
the flush outcome itself is kept abstract because the delivered batch,
not the HTTP result, is what the temporal claims are about. -/

namespace UpdateQueue

def UPDATE_BATCH_DELAY : Nat := 500

structure PendingEdit (V : Type) : Type where
  id : Int
  field : String
  value : V
  timestamp : Nat
deriving DecidableEq

inductive EvKind (V : Type) : Type
  | editArrive (id : Int) (field : String) (value : V)
  | timerFire (timerId : Nat)
  | flushDone (batch : List (PendingEdit V))
deriving DecidableEq

structure Ev (V : Type) : Type where
  time : Nat
  kind : EvKind V
deriving DecidableEq

structure QState (V : Type) : Type where
  pendingUpdates : List (PendingEdit V)
  updateTimeoutId : Option Nat
  nextTimerId : Nat
  flushStarts : List (Nat × List (PendingEdit V))
  sent : List (Nat × List (PendingEdit V))
deriving DecidableEq

/-- initState is the module at load: empty queue, no timeout. -/
def initState {V : Type} : QState V :=
  { pendingUpdates := [], updateTimeoutId := none, nextTimerId := 0,
    flushStarts := [], sent := [] }

/-- popEarliest removes the first event of minimal time. -/
def popEarliest {V : Type} : List (Ev V) → Option (Ev V × List (Ev V))
  | [] => none
  | e :: rest =>
    match popEarliest rest with
    | none => some (e, rest)
    | some (m, rest') =>
      if e.time ≤ m.time then some (e, rest) else some (m, e :: rest')

/-- keepTimer is false exactly on the timer callback being cancelled. -/
def keepTimer {V : Type} (tid : Nat) (ev : Ev V) : Bool :=
  match ev.kind with
  | .timerFire t => t != tid
  | _ => true

/-- dropTimer models clearTimeout: the scheduled callback with this id
never runs. -/
def dropTimer {V : Type} (q : List (Ev V)) (tid : Nat) : List (Ev V) :=
  q.filter (keepTimer tid)

/-- queueUpdate appends a PendingEdit stamped Date.now, and returns the
updated state, the timeout id to clear (when one was recorded), and the
newly scheduled timer event UPDATE_BATCH_DELAY later. -/
def queueUpdate {V : Type} (s : QState V) (t : Nat) (idv : Int)
    (fieldv : String) (valuev : V) : QState V × Option Nat × Ev V :=
  ({ s with
      pendingUpdates := s.pendingUpdates ++ [⟨idv, fieldv, valuev, t⟩]
      updateTimeoutId := some s.nextTimerId
      nextTimerId := s.nextTimerId + 1 },
   s.updateTimeoutId,
   { time := t + UPDATE_BATCH_DELAY, kind := .timerFire s.nextTimerId })

/-- run consumes events earliest-first.  An edit arrival performs
queueUpdate (cancelling the recorded timer and scheduling a new one).  A
timer fire runs processPendingUpdates: nothing on an empty queue,
otherwise the flush starts with the queued batch and completes flushDur
later.  A flush completion delivers the batch to the sink, then the
finally block truncates pendingUpdates and nulls updateTimeoutId. -/
def run {V : Type} (flushDur : Nat) : Nat → QState V → List (Ev V) → QState V
  | 0, s, _ => s
  | fuel + 1, s, q =>
    match popEarliest q with
    | none => s
    | some (ev, rest) =>
      match ev.kind with
      | .editArrive idv fieldv valuev =>
        let step := queueUpdate s ev.time idv fieldv valuev
        let rest' := match step.2.1 with
          | some tid => dropTimer rest tid
          | none => rest
        run flushDur fuel step.1 (rest' ++ [step.2.2])
      | .timerFire _ =>
        if s.pendingUpdates.isEmpty then run flushDur fuel s rest
        else
          run flushDur fuel
            { s with flushStarts := s.flushStarts ++ [(ev.time, s.pendingUpdates)] }
            (rest ++ [{ time := ev.time + flushDur, kind := .flushDone s.pendingUpdates }])
      | .flushDone batch =>
        run flushDur fuel
          { s with
              sent := s.sent ++ [(ev.time, batch)]
              pendingUpdates := []
              updateTimeoutId := none } rest

/-- EditEv packages one host edit call: its arrival time and the
queueUpdate arguments. -/
structure EditEv (V : Type) : Type where
  time : Nat
  id : Int
  field : String
  value : V
deriving DecidableEq

/-- editEvents lists edit arrivals as simulation events. -/
def editEvents {V : Type} (l : List (EditEv V)) : List (Ev V) :=
  l.map (fun e => { time := e.time, kind := .editArrive e.id e.field e.value })

/-- editPendings lists the PendingEdit records the edits produce. -/
def editPendings {V : Type} (l : List (EditEv V)) : List (PendingEdit V) :=
  l.map (fun e => { id := e.id, field := e.field, value := e.value, timestamp := e.time })

lemma popEarliest_mem {V : Type} :
    ∀ (q : List (Ev V)) (m : Ev V) (rest' : List (Ev V)),
      popEarliest q = some (m, rest') → m ∈ q := by
  intro q
  induction q with
  | nil => intro m rest' h; cases h
  | cons e rest ih =>
    intro m rest' h
    unfold popEarliest at h
    rcases hpe : popEarliest rest with _ | ⟨m', r'⟩ <;> rw [hpe] at h
    · have h' : some (e, rest) = some (m, rest') := h
      cases h'
      exact List.mem_cons_self e rest
    · have h' : (if e.time ≤ m'.time then some (e, rest) else some (m', e :: r'))
          = some (m, rest') := h
      by_cases hle : e.time ≤ m'.time
      · rw [if_pos hle] at h'; cases h'; exact List.mem_cons_self e rest
      · rw [if_neg hle] at h'
        injection h' with hmr
        have hm : m' = m := congrArg Prod.fst hmr
        subst hm
        exact List.mem_cons_of_mem e (ih _ _ hpe)

lemma popEarliest_cons_min {V : Type} (e : Ev V) (rest : List (Ev V))
    (h : ∀ b ∈ rest, e.time ≤ b.time) :
    popEarliest (e :: rest) = some (e, rest) := by
  unfold popEarliest
  rcases hpe : popEarliest rest with _ | ⟨m, r'⟩
  · rfl
  · show (if e.time ≤ m.time then some (e, rest) else some (m, e :: r')) = some (e, rest)
    rw [if_pos (h m (popEarliest_mem rest m r' hpe))]

lemma run_nil_queue {V : Type} (d : Nat) :
    ∀ (fuel : Nat) (s : QState V), run d fuel s [] = s := by
  intro fuel s
  cases fuel <;> rfl

lemma run_step {V : Type} (d fuel : Nat) (s : QState V) (q : List (Ev V))
    (ev : Ev V) (rest : List (Ev V)) (hpop : popEarliest q = some (ev, rest)) :
    run d (fuel + 1) s q
      = match ev.kind with
        | .editArrive idv fieldv valuev =>
          let step := queueUpdate s ev.time idv fieldv valuev
          let rest' := match step.2.1 with
            | some tid => dropTimer rest tid
            | none => rest
          run d fuel step.1 (rest' ++ [step.2.2])
        | .timerFire _ =>
          if s.pendingUpdates.isEmpty then run d fuel s rest
          else
            run d fuel
              { s with flushStarts := s.flushStarts ++ [(ev.time, s.pendingUpdates)] }
              (rest ++ [{ time := ev.time + d, kind := .flushDone s.pendingUpdates }])
        | .flushDone batch =>
          run d fuel
            { s with
                sent := s.sent ++ [(ev.time, batch)]
                pendingUpdates := []
                updateTimeoutId := none } rest := by
  have h0 : run d (fuel + 1) s q
      = match popEarliest q with
        | none => s
        | some (ev, rest) =>
          match ev.kind with
          | .editArrive idv fieldv valuev =>
            let step := queueUpdate s ev.time idv fieldv valuev
            let rest' := match step.2.1 with
              | some tid => dropTimer rest tid
              | none => rest
            run d fuel step.1 (rest' ++ [step.2.2])
          | .timerFire _ =>
            if s.pendingUpdates.isEmpty then run d fuel s rest
            else
              run d fuel
                { s with flushStarts := s.flushStarts ++ [(ev.time, s.pendingUpdates)] }
                (rest ++ [{ time := ev.time + d, kind := .flushDone s.pendingUpdates }])
          | .flushDone batch =>
            run d fuel
              { s with
                  sent := s.sent ++ [(ev.time, batch)]
                  pendingUpdates := []
                  updateTimeoutId := none } rest := rfl
  rw [h0, hpop]

lemma run_step_edit {V : Type} (d fuel : Nat) (s : QState V) (q : List (Ev V))
    (t : Nat) (idv : Int) (fieldv : String) (valuev : V) (rest : List (Ev V))
    (hpop : popEarliest q
      = some ({ time := t, kind := .editArrive idv fieldv valuev }, rest)) :
    run d (fuel + 1) s q
      = run d fuel
          { s with
              pendingUpdates := s.pendingUpdates
                ++ [{ id := idv, field := fieldv, value := valuev, timestamp := t }]
              updateTimeoutId := some s.nextTimerId
              nextTimerId := s.nextTimerId + 1 }
          ((match s.updateTimeoutId with
            | some tid0 => dropTimer rest tid0
            | none => rest)
            ++ [{ time := t + UPDATE_BATCH_DELAY, kind := .timerFire s.nextTimerId }]) := by
  rw [run_step d fuel s q _ rest hpop]
  rfl

lemma isEmpty_false_of_ne_nil {V : Type} {l : List V} (h : l ≠ []) :
    l.isEmpty = false := by
  cases l with
  | nil => exact absurd rfl h
  | cons x xs => rfl

lemma run_step_timer {V : Type} (d fuel : Nat) (s : QState V) (q : List (Ev V))
    (t tid : Nat) (rest : List (Ev V)) (hne : s.pendingUpdates ≠ [])
    (hpop : popEarliest q = some ({ time := t, kind := .timerFire tid }, rest)) :
    run d (fuel + 1) s q
      = run d fuel
          { s with flushStarts := s.flushStarts ++ [(t, s.pendingUpdates)] }
          (rest ++ [{ time := t + d, kind := .flushDone s.pendingUpdates }]) := by
  rw [run_step d fuel s q _ rest hpop]
  rw [show s.pendingUpdates.isEmpty = false from isEmpty_false_of_ne_nil hne]
  rfl

lemma run_step_timer_empty {V : Type} (d fuel : Nat) (s : QState V) (q : List (Ev V))
    (t tid : Nat) (rest : List (Ev V)) (hpend : s.pendingUpdates = [])
    (hpop : popEarliest q = some ({ time := t, kind := .timerFire tid }, rest)) :
    run d (fuel + 1) s q = run d fuel s rest := by
  rw [run_step d fuel s q _ rest hpop]
  rw [show s.pendingUpdates.isEmpty = true from by rw [hpend]; rfl]
  rfl

lemma run_step_flushDone {V : Type} (d fuel : Nat) (s : QState V) (q : List (Ev V))
    (t : Nat) (batch : List (PendingEdit V)) (rest : List (Ev V))
    (hpop : popEarliest q = some ({ time := t, kind := .flushDone batch }, rest)) :
    run d (fuel + 1) s q
      = run d fuel
          { s with
              sent := s.sent ++ [(t, batch)]
              pendingUpdates := []
              updateTimeoutId := none } rest := by
  rw [run_step d fuel s q _ rest hpop]

lemma dropTimer_editEvents_snoc {V : Type} (l : List (EditEv V)) (t tid : Nat) :
    dropTimer (editEvents l ++ [{ time := t, kind := .timerFire tid }]) tid
      = editEvents l := by
  unfold dropTimer
  rw [List.filter_append]
  have h1 : List.filter (keepTimer tid)
      [({ time := t, kind := .timerFire tid } : Ev V)] = [] := by
    simp [List.filter_cons, keepTimer]
  have h2 : List.filter (keepTimer tid) (editEvents l) = editEvents l := by
    apply List.filter_eq_self.mpr
    intro a ha
    obtain ⟨x, hx, rfl⟩ := List.mem_map.mp ha
    rfl
  rw [h1, h2, List.append_nil]

/-- run_burst: from a state holding a non-empty queue and an armed
debounce timer, a further burst of edits whose consecutive gaps are below
the delay produces exactly one flush, holding every queued edit, starting
UPDATE_BATCH_DELAY after the last edit and delivered flushDur later. -/
lemma run_burst {V : Type} (d : Nat) :
    ∀ (rest : List (EditEv V)) (fuel : Nat) (done : List (PendingEdit V))
      (tPrev tid nid : Nat),
      done ≠ [] →
      rest.length + 2 ≤ fuel →
      List.Chain (fun a b => a ≤ b ∧ b < a + UPDATE_BATCH_DELAY) tPrev
        (rest.map EditEv.time) →
      run d fuel
        { pendingUpdates := done, updateTimeoutId := some tid, nextTimerId := nid,
          flushStarts := [], sent := [] }
        (editEvents rest ++ [{ time := tPrev + UPDATE_BATCH_DELAY, kind := .timerFire tid }])
      = { pendingUpdates := [], updateTimeoutId := none,
          nextTimerId := nid + rest.length,
          flushStarts := [((rest.map EditEv.time).getLastD tPrev + UPDATE_BATCH_DELAY,
            done ++ editPendings rest)],
          sent := [((rest.map EditEv.time).getLastD tPrev + UPDATE_BATCH_DELAY + d,
            done ++ editPendings rest)] } := by
  intro rest
  induction rest with
  | nil =>
    intro fuel done tPrev tid nid hdone hfuel hchain
    match fuel, hfuel with
    | f + 2, _ =>
      have h1 : run d (f + 1 + 1)
          ({ pendingUpdates := done, updateTimeoutId := some tid, nextTimerId := nid,
             flushStarts := [], sent := [] } : QState V)
          (editEvents ([] : List (EditEv V))
            ++ [{ time := tPrev + UPDATE_BATCH_DELAY, kind := .timerFire tid }])
          = run d (f + 1)
              { pendingUpdates := done, updateTimeoutId := some tid, nextTimerId := nid,
                flushStarts := [(tPrev + UPDATE_BATCH_DELAY, done)], sent := [] }
              ([] ++ [{ time := tPrev + UPDATE_BATCH_DELAY + d, kind := .flushDone done }]) :=
        run_step_timer d (f + 1) _ _ (tPrev + UPDATE_BATCH_DELAY) tid [] hdone rfl
      have h2 : run d (f + 1)
          ({ pendingUpdates := done, updateTimeoutId := some tid, nextTimerId := nid,
             flushStarts := [(tPrev + UPDATE_BATCH_DELAY, done)], sent := [] } : QState V)
          ([] ++ [{ time := tPrev + UPDATE_BATCH_DELAY + d, kind := .flushDone done }])
          = run d f
              { pendingUpdates := [], updateTimeoutId := none, nextTimerId := nid,
                flushStarts := [(tPrev + UPDATE_BATCH_DELAY, done)],
                sent := [(tPrev + UPDATE_BATCH_DELAY + d, done)] } [] :=
        run_step_flushDone d f _ _ (tPrev + UPDATE_BATCH_DELAY + d) done [] rfl
      show run d (f + 1 + 1) _ _ = _
      rw [h1, h2, run_nil_queue]
      simp [editPendings]
  | cons r rs ih =>
    intro fuel done tPrev tid nid hdone hfuel hchain
    rcases hchain with _ | ⟨⟨hle, hgap⟩, hchainTail⟩
    match fuel, hfuel with
    | f + 1, hfuel =>
      have hsorted : ∀ b ∈ editEvents rs
          ++ [({ time := tPrev + UPDATE_BATCH_DELAY, kind := .timerFire tid } : Ev V)],
          ({ time := r.time, kind := .editArrive r.id r.field r.value } : Ev V).time
            ≤ b.time := by
        intro b hb
        rcases List.mem_append.mp hb with hb | hb
        · obtain ⟨x, hx, rfl⟩ := List.mem_map.mp hb
          have hch : List.Chain (fun a b : Nat => a ≤ b) r.time (rs.map EditEv.time) :=
            List.Chain.imp (fun a b h => h.1) hchainTail
          have hpair := List.chain_iff_pairwise.mp hch
          exact (List.pairwise_cons.mp hpair).1 x.time (List.mem_map_of_mem EditEv.time hx)
        · simp only [List.mem_singleton] at hb
          subst hb
          show r.time ≤ tPrev + UPDATE_BATCH_DELAY
          omega
      have hq : editEvents (r :: rs)
          ++ [({ time := tPrev + UPDATE_BATCH_DELAY, kind := .timerFire tid } : Ev V)]
          = ({ time := r.time, kind := .editArrive r.id r.field r.value } : Ev V)
            :: (editEvents rs
              ++ [({ time := tPrev + UPDATE_BATCH_DELAY, kind := .timerFire tid } : Ev V)]) := by
        simp [editEvents]
      rw [hq]
      rw [run_step_edit d f _ _ r.time r.id r.field r.value _
        (popEarliest_cons_min _ _ hsorted)]
      simp only
      rw [dropTimer_editEvents_snoc rs (tPrev + UPDATE_BATCH_DELAY) tid]
      have hres := ih f
        (done ++ [{ id := r.id, field := r.field, value := r.value, timestamp := r.time }])
        r.time nid (nid + 1) (by simp)
        (by simp only [List.length_cons] at hfuel; omega) hchainTail
      rw [hres]
      have harith : nid + 1 + rs.length = nid + (rs.length + 1) := by omega
      simp only [editPendings, List.map_cons, List.getLastD_cons, List.length_cons,
        List.append_assoc, List.cons_append, List.nil_append, harith]

end UpdateQueue

/-! The flush transfer paths of processPendingUpdates:
processBatchWithRetry and processSequentialUpdatesWithRetry.

The HTTP endpoints are oracles per attempt.  For the batch endpoint,
BatchResp distinguishes a successful JSON response (with its optional
successCount field), a 404 (batch endpoint unavailable), another non-ok
status (thrown as an API error, caught and rethrown because it is not a
network error, hence retried), and a network failure (TypeError or
Failed-to-fetch, which also falls back to sequential transfer).  For the
single-update endpoint, `single i k` is attempt k for the i-th edit of the
batch: an error models a thrown/non-ok response (retried), `ok b` models
an ok response whose JSON success flag is b.  Both paths call
withExponentialBackoff with the source's default retry parameters.  The
returned pair carries the successCount and, for the sequential path, the
edits passed to the single-update transfer in order. -/

inductive BatchResp : Type
  | okJson (successCount : Option Nat)
  | notFound
  | httpError (code : Nat) (text : String)
  | netFailure
deriving DecidableEq

/-- processSequentialUpdatesWithRetry sends each update individually under
the Retry Policy; a failed or unsuccessful item only skips the counter
increment and never aborts the remaining items. -/
def processSequentialUpdatesWithRetry {U : Type}
    (single : Nat → Nat → Except String Bool) (batch : List U) : Nat × List U :=
  batch.enum.foldl
    (fun acc p =>
      match (withExponentialBackoff (single p.1)).1 with
      | .ok true => (acc.1 + 1, acc.2 ++ [p.2])
      | .ok false => (acc.1, acc.2 ++ [p.2])
      | .error _ => (acc.1, acc.2 ++ [p.2]))
    (0, [])

/-- processBatchWithRetry tries the batch endpoint first under the Retry
Policy; a 404 or a network failure falls back to sequential per-item
transfer inside the same attempt, another non-ok status is rethrown to
trigger a retry of the whole attempt. -/
def processBatchWithRetry {U : Type} (batchResp : Nat → BatchResp)
    (single : Nat → Nat → Except String Bool) (batch : List U) :
    Except String (Nat × List U) :=
  (withExponentialBackoff (fun attempt =>
    match batchResp attempt with
    | .okJson sc =>
      .ok ((fun n => if n = 0 then batch.length else n) (sc.getD 0), ([] : List U))
    | .notFound => .ok (processSequentialUpdatesWithRetry single batch)
    | .httpError code text => .error ("API error: " ++ toString code ++ " " ++ text)
    | .netFailure => .ok (processSequentialUpdatesWithRetry single batch))).1

lemma processSequentialUpdates_foldl {U : Type}
    (single : Nat → Nat → Except String Bool) :
    ∀ (l : List U) (n : Nat) (acc : Nat × List U),
      ((List.enumFrom n l).foldl
        (fun acc p =>
          match (withExponentialBackoff (single p.1)).1 with
          | .ok true => (acc.1 + 1, acc.2 ++ [p.2])
          | .ok false => (acc.1, acc.2 ++ [p.2])
          | .error _ => (acc.1, acc.2 ++ [p.2])) acc).2 = acc.2 ++ l
      ∧ ((List.enumFrom n l).foldl
        (fun acc p =>
          match (withExponentialBackoff (single p.1)).1 with
          | .ok true => (acc.1 + 1, acc.2 ++ [p.2])
          | .ok false => (acc.1, acc.2 ++ [p.2])
          | .error _ => (acc.1, acc.2 ++ [p.2])) acc).1 ≤ acc.1 + l.length := by
  intro l
  induction l with
  | nil => intro n acc; exact ⟨by simp, by simp⟩
  | cons x xs ih =>
    intro n acc
    have hstep : List.enumFrom n (x :: xs) = (n, x) :: List.enumFrom (n + 1) xs := rfl
    rw [hstep, List.foldl_cons]
    rcases hr : (withExponentialBackoff (single n)).1 with e | b
    · obtain ⟨h1, h2⟩ := ih (n + 1) (acc.1, acc.2 ++ [x])
      simp only [hr] at *
      refine ⟨by rw [h1]; simp, by rw [List.length_cons]; omega⟩
    · cases b
      · obtain ⟨h1, h2⟩ := ih (n + 1) (acc.1, acc.2 ++ [x])
        simp only [hr] at *
        refine ⟨by rw [h1]; simp, by rw [List.length_cons]; omega⟩
      · obtain ⟨h1, h2⟩ := ih (n + 1) (acc.1 + 1, acc.2 ++ [x])
        simp only [hr] at *
        refine ⟨by rw [h1]; simp, by rw [List.length_cons]; omega⟩

/-- processSequentialUpdatesWithRetry transfers every edit of the batch,
in order, and its success count never exceeds the batch size. -/
lemma processSequentialUpdates_spec {U : Type}
    (single : Nat → Nat → Except String Bool) (batch : List U) :
    (processSequentialUpdatesWithRetry single batch).2 = batch
    ∧ (processSequentialUpdatesWithRetry single batch).1 ≤ batch.length := by
  have h := processSequentialUpdates_foldl single batch 0 (0, [])
  exact ⟨by simpa using h.1, by simpa using h.2⟩

/-! Claim theorems. -/

/-- C1: with the chunkSize option omitted, processRangeInChunks resolves
the chunk size to the fixed DEFAULT_CHUNK_SIZE of 250 — the destructuring
default makes the resolved value truthy, so the falsy fall-through to the
Payload Estimator is dead and calculateOptimalChunkSize is never
consulted; for the 1-by-1 grid shape the estimator would have returned
500. -/
theorem resolveChunkSize_omitted_uses_default :
    resolveChunkSize none 1 1 = DEFAULT_CHUNK_SIZE
    ∧ calculateOptimalChunkSize 1 1 = 500
    ∧ resolveChunkSize none 1 1 ≠ calculateOptimalChunkSize 1 1 := by
  refine ⟨rfl, by decide, by decide⟩

/-- C4: withExponentialBackoff invokes an operation failing on every
attempt exactly maxRetries + 1 times and rejects with exactly the error of
the last invocation, unchanged; an operation succeeding at its first
invocation returns its result after exactly one invocation, with an empty
list of slept backoff delays. -/
theorem withExponentialBackoff_retry_contract {ε α : Type}
    (op : Nat → Except ε α) (maxRetries : Nat) (initialDelay maxDelay : ℚ)
    (rand : Nat → ℚ) :
    ((∀ k, ∃ e, op k = .error e) →
      (withExponentialBackoff op maxRetries initialDelay maxDelay rand).1 = op maxRetries
      ∧ (withExponentialBackoff op maxRetries initialDelay maxDelay rand).2.1
          = maxRetries + 1)
    ∧ (∀ a : α, op 0 = .ok a →
      withExponentialBackoff op maxRetries initialDelay maxDelay rand = (.ok a, 1, [])) := by
  constructor
  · intro hfail
    obtain ⟨h1, h2, h3⟩ :=
      backoffLoop_all_fail op rand maxDelay hfail maxRetries 0 initialDelay []
    exact ⟨by simpa using h1, by simpa using h2⟩
  · intro a hok
    exact backoffLoop_first_ok op rand maxDelay maxRetries initialDelay hok

/-- C4 witness: with maxRetries 2 an always-failing operation is invoked
3 times and rejects with the underlying error; a first-try success returns
after one invocation with no waits. -/
theorem withExponentialBackoff_retry_contract_witness :
    ((withExponentialBackoff (fun _ => (Except.error "sink down" : Except String Unit))
        2 1000 10000 (fun _ => 0)).1 = Except.error "sink down"
      ∧ (withExponentialBackoff (fun _ => (Except.error "sink down" : Except String Unit))
        2 1000 10000 (fun _ => 0)).2.1 = 3)
    ∧ withExponentialBackoff (fun _ => (Except.ok 7 : Except String Nat))
        5 1000 10000 (fun _ => 0) = (Except.ok 7, 1, []) := by
  constructor
  · obtain ⟨h1, h2⟩ := (withExponentialBackoff_retry_contract
      (fun _ => (Except.error "sink down" : Except String Unit)) 2 1000 10000
      (fun _ => 0)).1 (fun _ => ⟨"sink down", rfl⟩)
    exact ⟨h1.trans rfl, h2⟩
  · exact (withExponentialBackoff_retry_contract
      (fun _ => (Except.ok 7 : Except String Nat)) 5 1000 10000 (fun _ => 0)).2 7 rfl

/-- C5: for every grid and chunk size c > 0, the source chunking loop
terminates with the take/drop chunk sequence; concatenating the chunks in
order reconstructs the grid exactly (so the chunks are contiguous,
non-overlapping row ranges in original order), every chunk has between 1
and c rows, and every chunk except the last has exactly c rows. -/
theorem chunkRangeValues_partition {α : Type} (G : List (List α)) (c : Nat)
    (hc : 0 < c) :
    chunkRangeValues G (c : Int) (G.length + 1) = some (chunksOf G c)
    ∧ (chunksOf G c).flatten = G
    ∧ (∀ ch ∈ chunksOf G c, 0 < ch.length ∧ ch.length ≤ c)
    ∧ (∀ ch ∈ (chunksOf G c).dropLast, ch.length = c) :=
  ⟨chunkRangeValues_eq_chunksOf hc G, chunksOf_flatten hc G,
   chunksOf_length_bounds hc G, chunksOf_dropLast_length hc G⟩

/-- C5 witness: a 5-row grid with chunk size 2 splits into chunks of 2, 2
and 1 rows whose concatenation is the grid. -/
theorem chunkRangeValues_partition_witness :
    chunkRangeValues ([[1], [2], [3], [4], [5]] : List (List Nat)) (2 : Int) 6
      = some [[[1], [2]], [[3], [4]], [[5]]]
    ∧ (chunksOf ([[1], [2], [3], [4], [5]] : List (List Nat)) 2).flatten
      = [[1], [2], [3], [4], [5]] := by
  have h := chunkRangeValues_partition ([[1], [2], [3], [4], [5]] : List (List Nat)) 2
    (by decide)
  exact ⟨h.1.trans (by decide), h.2.1⟩

/-- C9 counterexample: chunkRangeValues on the non-empty grid [[0]] with
chunk size 0 diverges — the loop index never advances, so for every fuel
bound the loop is still running; the function neither fails fast nor
raises any InvalidArgument error (it has no validation and no error
outcome at all). -/
theorem chunkRangeValues_nonpos_counterexample :
    chunkDiverges ([[0]] : List (List Int)) 0 :=
  chunkRangeValues_nonpos_diverges (by decide) _ (by decide)

/-- C9 amended: for chunkSize at most 0, chunkRangeValues performs no
InvalidArgument validation: on a non-empty grid the loop never terminates,
and on an empty grid it returns the empty chunk list. -/
theorem chunkRangeValues_nonpos_behavior {α : Type} (values : List (List α))
    (c : Int) (hc : c ≤ 0) :
    (values ≠ [] → chunkDiverges values c)
    ∧ chunkRangeValues ([] : List (List α)) c 1 = some [] :=
  ⟨fun hne => chunkRangeValues_nonpos_diverges hc values hne, rfl⟩

/-- C9 witness: chunk size -3 diverges on a one-row grid and returns the
empty chunk list on the empty grid. -/
theorem chunkRangeValues_nonpos_behavior_witness :
    chunkDiverges ([[true]] : List (List Bool)) (-3)
    ∧ chunkRangeValues ([] : List (List Bool)) (-3) 1 = some [] :=
  ⟨(chunkRangeValues_nonpos_behavior ([[true]] : List (List Bool)) (-3)
      (by decide)).1 (by decide),
   (chunkRangeValues_nonpos_behavior ([] : List (List Bool)) (-3) (by decide)).2⟩

lemma chunkAttempt_const_ok (mr i : Nat) :
    chunkAttempt (fun _ _ => Except.ok ()) mr i = Except.ok () := by
  unfold chunkAttempt withExponentialBackoff
  rw [backoffLoop_first_ok ((fun _ _ => Except.ok ()) i) (fun _ => 0) MAX_RETRY_DELAY
    mr INITIAL_RETRY_DELAY rfl]

/-- C2: on a non-empty grid, when every chunk write succeeds, the engine
writes exactly the chunks with indices from
max(0, min(resumeFromChunk, totalChunks - 1)) through totalChunks - 1 —
one write per chunk, in strictly increasing index order, none repeated or
skipped — for every options value. -/
theorem processRangeInChunks_writes_exact {α : Type}
    (sink : Nat → Nat → Except String Unit) (st : Store) (r0 : List α)
    (rows : List (List α)) (sc : String) (options : ChunkingOptions) (now : Nat)
    (hok : ∀ j, chunkAttempt sink (options.maxRetries.getD MAX_RETRIES) j
      = Except.ok ()) :
    let chunks := chunksOf (r0 :: rows)
      (resolveChunkSize options.chunkSize (r0 :: rows).length r0.length)
    let startChunk := (max 0 (min (options.resumeFromChunk.getD 0)
      ((chunks.length : Int) - 1))).toNat
    (processRangeInChunks sink st (some (r0 :: rows)) sc options now).writes
      = (List.range' startChunk (chunks.length - startChunk)).map
          (fun j => (j, chunks.getD j [])) := by
  intro chunks startChunk
  have h := (processLoop_all_ok sink (options.maxRetries.getD MAX_RETRIES) chunks
    (options.operationId.getD ("range_op_" ++ toString now)) now hok
    (chunks.length - startChunk) startChunk
    { (match loadProgress st (options.operationId.getD ("range_op_" ++ toString now)) with
       | some p => (p, st)
       | none => createProgressTracker st
           (options.operationId.getD ("range_op_" ++ toString now)) chunks.length now).1
        with totalChunks := chunks.length }
    (match loadProgress st (options.operationId.getD ("range_op_" ++ toString now)) with
     | some p => (p, st)
     | none => createProgressTracker st
         (options.operationId.getD ("range_op_" ++ toString now)) chunks.length now).2
    []).1
  rw [List.nil_append] at h
  exact h

/-- C2 witness: a 10-row grid chunked by single rows with resumeFromChunk
3 writes exactly the chunks with indices 3 through 9 (chunks 4 to 10,
1-based) in increasing order. -/
theorem processRangeInChunks_writes_exact_witness :
    (processRangeInChunks (fun _ _ => Except.ok ()) []
      (some ([[1], [2], [3], [4], [5], [6], [7], [8], [9], [10]] : List (List Nat)))
      "A1"
      { chunkSize := some 1, operationId := some "op2", resumeFromChunk := some 3 }
      0).writes
    = [(3, [[4]]), (4, [[5]]), (5, [[6]]), (6, [[7]]), (7, [[8]]), (8, [[9]]),
       (9, [[10]])] := by
  have h := processRangeInChunks_writes_exact (fun _ _ => Except.ok ()) []
    [1] [[2], [3], [4], [5], [6], [7], [8], [9], [10]] "A1"
    { chunkSize := some 1, operationId := some "op2", resumeFromChunk := some 3 } 0
    (fun j => chunkAttempt_const_ok _ j)
  exact h.trans (by decide)

/-- C3: on a non-empty grid with a consistent resume point (the persisted
entry for the operation id, when present, belongs to that id and records
exactly the chunks below the start index; absent otherwise and starting at
0), a run ends one of two ways: if every remaining chunk write succeeds,
the progress record is marked completed and the persisted entry for the
operation id is removed; if chunk f exhausts its retries with error e, the
run rejects with exactly e and the persisted entry still records
completedChunks = f, the number of chunks that succeeded before the
failure. -/
theorem processRangeInChunks_outcome_contract {α : Type}
    (sink : Nat → Nat → Except String Unit) (st : Store) (r0 : List α)
    (rows : List (List α)) (sc : String) (options : ChunkingOptions) (now : Nat) :
    let mr := options.maxRetries.getD MAX_RETRIES
    let opId := options.operationId.getD ("range_op_" ++ toString now)
    let chunks := chunksOf (r0 :: rows)
      (resolveChunkSize options.chunkSize (r0 :: rows).length r0.length)
    let startChunk := (max 0 (min (options.resumeFromChunk.getD 0)
      ((chunks.length : Int) - 1))).toNat
    let pair := match loadProgress st opId with
      | some p => (p, st)
      | none => createProgressTracker st opId chunks.length now
    let res := processRangeInChunks sink st (some (r0 :: rows)) sc options now
    (match loadProgress st opId with
      | some p => p.operationId = opId ∧ p.completedChunks = startChunk
      | none => startChunk = 0) →
    ((∀ j, chunkAttempt sink mr j = Except.ok ()) →
      res.result = Except.ok ()
      ∧ (∃ p, res.progress = some p ∧ p.status = ProgressStatus.completed)
      ∧ loadProgress res.store opId = none)
    ∧ (∀ (f : Nat) (e : String), startChunk ≤ f → f < chunks.length →
        (∀ j, startChunk ≤ j → j < f → chunkAttempt sink mr j = Except.ok ()) →
        chunkAttempt sink mr f = Except.error e →
        res.result = Except.error e
        ∧ ∃ q, loadProgress res.store opId = some q ∧ q.completedChunks = f) := by
  intro mr opId chunks startChunk pair res hinit
  constructor
  · intro hall
    have h := processLoop_all_ok sink mr chunks opId now hall
      (chunks.length - startChunk) startChunk
      { pair.1 with totalChunks := chunks.length } pair.2 []
    obtain ⟨hw, hr, ⟨p, hp, hps, hpo, hpc⟩, hst⟩ := h
    exact ⟨hr, ⟨p, hp, hps⟩, hst⟩
  · intro f e hsf hfl hoks hfe
    have hpid : ({ pair.1 with totalChunks := chunks.length }).operationId = opId := by
      cases hload : loadProgress st opId with
      | some p =>
        rw [hload] at hinit
        have hpair : pair = (p, st) := by
          show (match loadProgress st opId with
            | some p => (p, st)
            | none => createProgressTracker st opId chunks.length now) = (p, st)
          rw [hload]
        rw [hpair]
        exact hinit.1
      | none =>
        have hpair : pair = createProgressTracker st opId chunks.length now := by
          show (match loadProgress st opId with
            | some p => (p, st)
            | none => createProgressTracker st opId chunks.length now) = _
          rw [hload]
        rw [hpair]
        rfl
    have hstore : ∃ q, kvGet pair.2 (progressKey opId) = some q
        ∧ q.completedChunks = startChunk := by
      cases hload : loadProgress st opId with
      | some p =>
        rw [hload] at hinit
        have hpair : pair = (p, st) := by
          show (match loadProgress st opId with
            | some p => (p, st)
            | none => createProgressTracker st opId chunks.length now) = (p, st)
          rw [hload]
        rw [hpair]
        exact ⟨p, hload, hinit.2⟩
      | none =>
        rw [hload] at hinit
        have hpair : pair = createProgressTracker st opId chunks.length now := by
          show (match loadProgress st opId with
            | some p => (p, st)
            | none => createProgressTracker st opId chunks.length now) = _
          rw [hload]
        rw [hpair]
        refine ⟨(createProgressTracker st opId chunks.length now).1, ?_, hinit.symm ▸ rfl⟩
        show kvGet (saveProgress st (createProgressTracker st opId chunks.length now).1)
          (progressKey opId) = _
        unfold saveProgress
        exact kvGet_kvSet_self _ _ _
    have h := processLoop_fail sink mr chunks opId now f e hfe
      (chunks.length - startChunk) startChunk
      { pair.1 with totalChunks := chunks.length } pair.2 []
      hsf (by omega) hoks hpid hstore
    exact h

/-- C3 witness: a fresh 2-row, 2-chunk run whose second chunk write always
fails with the error boom rejects with boom and leaves persisted progress
with completedChunks 1. -/
theorem processRangeInChunks_outcome_contract_witness :
    (processRangeInChunks
        (fun i _ => if i = 0 then Except.ok () else Except.error "boom") []
        (some ([[1], [2]] : List (List Nat))) "A1"
        { chunkSize := some 1, operationId := some "op3", maxRetries := some 0 }
        0).result = Except.error "boom"
    ∧ ∃ q, loadProgress
        (processRangeInChunks
          (fun i _ => if i = 0 then Except.ok () else Except.error "boom") []
          (some ([[1], [2]] : List (List Nat))) "A1"
          { chunkSize := some 1, operationId := some "op3", maxRetries := some 0 }
          0).store "op3" = some q ∧ q.completedChunks = 1 := by
  have h := (processRangeInChunks_outcome_contract
    (fun i _ => if i = 0 then Except.ok () else Except.error "boom") []
    [1] [[2]] "A1"
    { chunkSize := some 1, operationId := some "op3", maxRetries := some 0 } 0
    rfl).2 1 "boom" (by decide) (by decide)
    (fun j _ hj => by
      have hj0 : j = 0 := by omega
      subst hj0
      decide)
    (by decide)
  exact h

/-- C10: a null or empty values grid makes processRangeInChunks resolve
immediately as a no-op: ok result, no progress record created, the
persistent store untouched for every key, and no sink write issued. -/
theorem processRangeInChunks_empty_noop {α : Type}
    (sink : Nat → Nat → Except String Unit) (st : Store) (sc : String)
    (options : ChunkingOptions) (now : Nat) :
    processRangeInChunks sink st (none : Option (List (List α))) sc options now
      = { result := .ok (), progress := none, store := st, writes := [] }
    ∧ processRangeInChunks (α := α) sink st (some []) sc options now
      = { result := .ok (), progress := none, store := st, writes := [] } :=
  ⟨rfl, rfl⟩

/-- C6: an edit queued during an in-flight flush is lost, not delivered by
the next debounce cycle.  Edit 1 arrives at 0 ms and its flush runs from
500 ms to 800 ms; edit 2 arrives at 600 ms, while the flush is in flight,
and is appended to the same shared pendingUpdates array; the flush's
finally block then truncates that array, so the timer edit 2 armed fires
at 1100 ms on an empty queue and does nothing.  The only batch ever
delivered to the sink is the one holding edit 1 alone, and the simulation
ends with an empty queue: edit 2 is silently dropped. -/
theorem updateQueue_midflight_edit_lost :
    UpdateQueue.run (V := Int) 300 10 UpdateQueue.initState
      [{ time := 0, kind := .editArrive 1 "price" 10 },
       { time := 600, kind := .editArrive 2 "quantity" 20 }]
      = { pendingUpdates := [], updateTimeoutId := none, nextTimerId := 2,
          flushStarts := [(500, [{ id := 1, field := "price", value := 10, timestamp := 0 }])],
          sent := [(800, [{ id := 1, field := "price", value := 10, timestamp := 0 }])] } := by
  decide

/-- C7: five queueUpdate calls whose inter-arrival gaps are all below the
500 ms debounce delay produce exactly one flush: it starts exactly
UPDATE_BATCH_DELAY after the fifth call (hence no earlier than the delay
after the last edit), carries all five edits, and its delivery is the only
batch the sink ever receives, for every flush duration and any fuel beyond
the events actually processed. -/
theorem updateQueue_burst_single_flush {V : Type} (d : Nat)
    (t1 t2 t3 t4 t5 : Nat) (i1 i2 i3 i4 i5 : Int) (f1 f2 f3 f4 f5 : String)
    (v1 v2 v3 v4 v5 : V) (fuel : Nat)
    (h12 : t1 ≤ t2) (h23 : t2 ≤ t3) (h34 : t3 ≤ t4) (h45 : t4 ≤ t5)
    (g12 : t2 < t1 + UpdateQueue.UPDATE_BATCH_DELAY)
    (g23 : t3 < t2 + UpdateQueue.UPDATE_BATCH_DELAY)
    (g34 : t4 < t3 + UpdateQueue.UPDATE_BATCH_DELAY)
    (g45 : t5 < t4 + UpdateQueue.UPDATE_BATCH_DELAY)
    (hfuel : 7 ≤ fuel) :
    UpdateQueue.run d fuel UpdateQueue.initState
      [{ time := t1, kind := .editArrive i1 f1 v1 },
       { time := t2, kind := .editArrive i2 f2 v2 },
       { time := t3, kind := .editArrive i3 f3 v3 },
       { time := t4, kind := .editArrive i4 f4 v4 },
       { time := t5, kind := .editArrive i5 f5 v5 }]
      = { pendingUpdates := [], updateTimeoutId := none, nextTimerId := 5,
          flushStarts := [(t5 + UpdateQueue.UPDATE_BATCH_DELAY,
            [{ id := i1, field := f1, value := v1, timestamp := t1 },
             { id := i2, field := f2, value := v2, timestamp := t2 },
             { id := i3, field := f3, value := v3, timestamp := t3 },
             { id := i4, field := f4, value := v4, timestamp := t4 },
             { id := i5, field := f5, value := v5, timestamp := t5 }])],
          sent := [(t5 + UpdateQueue.UPDATE_BATCH_DELAY + d,
            [{ id := i1, field := f1, value := v1, timestamp := t1 },
             { id := i2, field := f2, value := v2, timestamp := t2 },
             { id := i3, field := f3, value := v3, timestamp := t3 },
             { id := i4, field := f4, value := v4, timestamp := t4 },
             { id := i5, field := f5, value := v5, timestamp := t5 }])] } := by
  match fuel, hfuel with
  | f + 1, hfuel =>
    have hpop : UpdateQueue.popEarliest
        [({ time := t1, kind := .editArrive i1 f1 v1 } : UpdateQueue.Ev V),
         { time := t2, kind := .editArrive i2 f2 v2 },
         { time := t3, kind := .editArrive i3 f3 v3 },
         { time := t4, kind := .editArrive i4 f4 v4 },
         { time := t5, kind := .editArrive i5 f5 v5 }]
        = some ({ time := t1, kind := .editArrive i1 f1 v1 },
            [{ time := t2, kind := .editArrive i2 f2 v2 },
             { time := t3, kind := .editArrive i3 f3 v3 },
             { time := t4, kind := .editArrive i4 f4 v4 },
             { time := t5, kind := .editArrive i5 f5 v5 }]) := by
      apply UpdateQueue.popEarliest_cons_min
      intro b hb
      simp only [List.mem_cons, List.not_mem_nil, or_false] at hb
      rcases hb with rfl | rfl | rfl | rfl <;> dsimp only <;> omega
    rw [UpdateQueue.run_step_edit d f _ _ t1 i1 f1 v1 _ hpop]
    have hchain : List.Chain
        (fun a b => a ≤ b ∧ b < a + UpdateQueue.UPDATE_BATCH_DELAY) t1
        (([({ time := t2, id := i2, field := f2, value := v2 } : UpdateQueue.EditEv V),
           { time := t3, id := i3, field := f3, value := v3 },
           { time := t4, id := i4, field := f4, value := v4 },
           { time := t5, id := i5, field := f5, value := v5 }]).map
          UpdateQueue.EditEv.time) :=
      List.Chain.cons ⟨h12, g12⟩ (List.Chain.cons ⟨h23, g23⟩
        (List.Chain.cons ⟨h34, g34⟩ (List.Chain.cons ⟨h45, g45⟩ List.Chain.nil)))
    exact UpdateQueue.run_burst d
      [{ time := t2, id := i2, field := f2, value := v2 },
       { time := t3, id := i3, field := f3, value := v3 },
       { time := t4, id := i4, field := f4, value := v4 },
       { time := t5, id := i5, field := f5, value := v5 }]
      f [{ id := i1, field := f1, value := v1, timestamp := t1 }] t1 0 1
      (List.cons_ne_nil _ _)
      (by simp only [List.length_cons, List.length_nil]; omega)
      hchain

/-- C7 witness: five edits at 0, 100, 200, 300 and 400 ms with flush
duration 100 ms yield exactly one flush, firing at 900 ms with all five
edits and delivered at 1000 ms. -/
theorem updateQueue_burst_single_flush_witness :
    UpdateQueue.run (V := Int) 100 7 UpdateQueue.initState
      [{ time := 0, kind := .editArrive 1 "a" 11 },
       { time := 100, kind := .editArrive 2 "b" 12 },
       { time := 200, kind := .editArrive 3 "c" 13 },
       { time := 300, kind := .editArrive 4 "d" 14 },
       { time := 400, kind := .editArrive 5 "e" 15 }]
      = { pendingUpdates := [], updateTimeoutId := none, nextTimerId := 5,
          flushStarts := [(900,
            [{ id := 1, field := "a", value := 11, timestamp := 0 },
             { id := 2, field := "b", value := 12, timestamp := 100 },
             { id := 3, field := "c", value := 13, timestamp := 200 },
             { id := 4, field := "d", value := 14, timestamp := 300 },
             { id := 5, field := "e", value := 15, timestamp := 400 }])],
          sent := [(1000,
            [{ id := 1, field := "a", value := 11, timestamp := 0 },
             { id := 2, field := "b", value := 12, timestamp := 100 },
             { id := 3, field := "c", value := 13, timestamp := 200 },
             { id := 4, field := "d", value := 14, timestamp := 300 },
             { id := 5, field := "e", value := 15, timestamp := 400 }])] } := by
  exact updateQueue_burst_single_flush 100 0 100 200 300 400 1 2 3 4 5
    "a" "b" "c" "d" "e" (11 : Int) 12 13 14 15 7
    (by decide) (by decide) (by decide) (by decide)
    (by decide) (by decide) (by decide) (by decide) (by decide)

/-- C8: when the batch endpoint reports not-found on every attempt, the
flush falls back to sequential per-item transfer: the call resolves with
the sequential outcome rather than rejecting, every edit of the batch is
transferred individually in queue order exactly once (an item's failure
after its retries does not abort the remaining items), and the reported
success count never exceeds the batch size. -/
theorem processBatchWithRetry_notFound_fallback {U : Type}
    (batchResp : Nat → BatchResp) (single : Nat → Nat → Except String Bool)
    (batch : List U) (h404 : ∀ k, batchResp k = BatchResp.notFound) :
    processBatchWithRetry batchResp single batch
      = Except.ok (processSequentialUpdatesWithRetry single batch)
    ∧ (processSequentialUpdatesWithRetry single batch).2 = batch
    ∧ (processSequentialUpdatesWithRetry single batch).1 ≤ batch.length := by
  refine ⟨?_, (processSequentialUpdates_spec single batch).1,
    (processSequentialUpdates_spec single batch).2⟩
  unfold processBatchWithRetry withExponentialBackoff
  have hok : (match batchResp 0 with
      | BatchResp.okJson sc =>
        (Except.ok ((fun n => if n = 0 then batch.length else n) (sc.getD 0),
          ([] : List U)) : Except String (Nat × List U))
      | BatchResp.notFound => .ok (processSequentialUpdatesWithRetry single batch)
      | BatchResp.httpError code text =>
        .error ("API error: " ++ toString code ++ " " ++ text)
      | BatchResp.netFailure => .ok (processSequentialUpdatesWithRetry single batch))
      = Except.ok (processSequentialUpdatesWithRetry single batch) := by
    rw [h404 0]
  rw [backoffLoop_first_ok _ _ _ _ _ hok]

/-- C8 witness: a 3-edit queue against an always-not-found batch endpoint
resolves with 3 sequential single transfers in order; the middle item
always fails, so the success count is 2 and the other items still go
through. -/
theorem processBatchWithRetry_notFound_fallback_witness :
    processBatchWithRetry (fun _ => BatchResp.notFound)
      (fun i _ => if i = 1 then (Except.error "item down" : Except String Bool)
        else Except.ok true)
      [10, 20, 30] = Except.ok (2, [10, 20, 30])
    ∧ (processSequentialUpdatesWithRetry
        (fun i _ => if i = 1 then (Except.error "item down" : Except String Bool)
          else Except.ok true)
        [10, 20, 30]).2 = [10, 20, 30] := by
  have h := processBatchWithRetry_notFound_fallback (fun _ => BatchResp.notFound)
    (fun i _ => if i = 1 then (Except.error "item down" : Except String Bool)
      else Except.ok true)
    [10, 20, 30] (fun _ => rfl)
  exact ⟨h.1.trans (by decide), h.2.1⟩

end ExcelChunking
